import Mathlib

/- Shallow embedding of src/VQ2D/vq2d/baselines/feature_retrieval.py.

Machine reals (Python floats / numpy float64) are modelled exactly by the
rationals; Python ints by ℤ / ℕ.  Images are modelled abstractly by their shape
plus an opaque content tag; the external detection model is modelled by a
function from the searched frame index (which determines the downscaled image
fed to it together with the fixed reference) to its returned instances. -/

/-- Truncation toward zero: the semantics of numpy .astype(int) and of Python
int() applied to a rational value. -/
def pyInt (q : ℚ) : ℤ := if 0 ≤ q then ⌊q⌋ else -⌊-q⌋

/-- Python 3 round(): round half to even, as used in
window_size = int(round(len(search_window) * recency_factor)). -/
def pyRound (q : ℚ) : ℤ :=
  if q - ⌊q⌋ < 1/2 then ⌊q⌋
  else if 1/2 < q - ⌊q⌋ then ⌊q⌋ + 1
  else if ⌊q⌋ % 2 = 0 then ⌊q⌋ else ⌊q⌋ + 1

/-- Python list slicing l[i:] with a possibly negative start index: the
semantics of search_window[-window_size:] in the source. -/
def pySliceFrom {α : Type} (l : List α) (i : ℤ) : List α :=
  if 0 ≤ i then l.drop i.toNat else l.drop (l.length - (-i).toNat)

/-- numpy np.linspace(0, W - 1, n).astype(int): n evenly spaced points over
[0, W-1] (with the endpoint kept exactly for n ≥ 2, and the single point 0 for
n = 1), truncated to integers.  Real arithmetic is modelled exactly over ℚ. -/
def linspaceTrunc (W n : ℕ) : List ℕ :=
  if n = 0 then []
  else if n = 1 then [0]
  else (List.range n).map (fun i =>
    if i = n - 1 then W - 1
    else (⌊(i : ℚ) * ((W : ℚ) - 1) / ((n : ℚ) - 1)⌋).toNat)

/-- Base search window: list(range(0, query_frame)). -/
def baseWindow (query_frame : ℕ) : List ℕ := List.range query_frame

/-- Recency filtering step of perform_retrieval (lines 53-57):
window_size = int(round(len(search_window) * recency_factor));
if len(search_window[-window_size:]) > 0: search_window = search_window[-window_size:]. -/
def recencyStep (search_window : List ℕ) (recency_factor : ℚ) : List ℕ :=
  if 0 < (pySliceFrom search_window
      (-(pyRound ((search_window.length : ℚ) * recency_factor)))).length then
    pySliceFrom search_window (-(pyRound ((search_window.length : ℚ) * recency_factor)))
  else search_window

/-- Subsampling step of perform_retrieval (lines 58-64):
idxs_to_sample = np.linspace(0, window_size - 1, int(subsampling_factor * window_size)).astype(int);
if len(idxs_to_sample) > 0: search_window = [search_window[i] for i in idxs_to_sample].
List indexing is embedded with getD; all sampled indices are in range (proved
below). -/
def subsampleStep (search_window : List ℕ) (subsampling_factor : ℚ) : List ℕ :=
  if 0 < (linspaceTrunc search_window.length
      (pyInt (subsampling_factor * (search_window.length : ℚ))).toNat).length then
    (linspaceTrunc search_window.length
      (pyInt (subsampling_factor * (search_window.length : ℚ))).toNat).map
      (fun i => search_window.getD i 0)
  else search_window

/-- Search window computed by perform_retrieval (lines 52-64). -/
def select_search_window (query_frame : ℕ) (recency_factor subsampling_factor : ℚ) :
    List ℕ :=
  subsampleStep (recencyStep (baseWindow query_frame) recency_factor) subsampling_factor

/-- Search window computed by perform_cached_retrieval (lines 147-159).  The
source duplicates the six window lines of perform_retrieval verbatim; they are
transcribed here a second time, inline, exactly as they appear there. -/
def select_search_window_cached (query_frame : ℕ)
    (recency_factor subsampling_factor : ℚ) : List ℕ :=
  let search_window := List.range query_frame
  let window_size := pyRound ((search_window.length : ℚ) * recency_factor)
  let sliced := pySliceFrom search_window (-window_size)
  let search_window := if 0 < sliced.length then sliced else search_window
  let window_size := search_window.length
  let idxs_to_sample :=
    linspaceTrunc window_size (pyInt (subsampling_factor * (window_size : ℚ))).toNat
  if 0 < idxs_to_sample.length then
    idxs_to_sample.map (fun i => search_window.getD i 0)
  else search_window

/-- The count floor(subsampling_factor * W) named by the specification for the
subsampling step (spec-side formula, to be compared against the code). -/
def floorCount (f : ℚ) (W : ℕ) : ℕ := (⌊f * (W : ℚ)⌋).toNat

/-- An image, modelled by its shape and an opaque content tag. -/
structure Frame where
  height : ℕ
  width : ℕ
  pix : ℕ

/-- cv2.resize of a frame to an explicit (width, height): deterministic, the
result is a function of the source content and the target shape. -/
def cvResize (img : Frame) (w h : ℕ) : Frame := ⟨h, w, img.pix⟩

/-- visual_crop dictionary fields used by both retrievers. -/
structure VisualCrop where
  frame_number : ℕ
  original_width : ℕ
  original_height : ℕ
  x : ℤ
  y : ℤ
  width : ℤ
  height : ℤ

/-- Modelled from the spec: BBox from vq2d.structures (not under src/), a
detection proposal (frame_number, x1, y1, x2, y2) tagged with the frame it was
found in. -/
structure BBox where
  fno : ℕ
  x1 : ℤ
  y1 : ℤ
  x2 : ℤ
  y2 : ℤ

/-- Configuration fields read from net.cfg.INPUT by both retrievers. -/
structure NetCfg where
  reference_context_pad : ℚ
  reference_size : ℕ

/-- The external detection model.  Its batched call returns, per
(search frame, reference) pair, predicted boxes (in downscaled-frame
coordinates, rational) and confidence scores; the downscaled image handed to it
is a deterministic function of the searched frame index, so the per-pair
behaviour is modelled as a function of that index. -/
structure Net where
  cfg : NetCfg
  infer : ℕ → List (ℚ × ℚ × ℚ × ℚ) × List ℚ

/-- Modelled from the spec: the reference-preparation pipeline (cv2.resize and
extract_window_with_context from vq2d.baselines.utils, not under src/) is a
deterministic computation; the prepared reference image is represented by its
inputs: the (possibly resized) visual-crop frame, the reference bounding box
(x, y, x + width, y + height), the context pad and the target size. -/
structure RefImage where
  frame : Frame
  ref_bbox : ℤ × ℤ × ℤ × ℤ
  context_pad : ℚ
  size : ℕ

/-- Reference preparation common to both retrievers (lines 32-50 and 127-145). -/
def prepare_reference (video_reader : ℕ → Frame) (visual_crop : VisualCrop)
    (context_pad : ℚ) (size : ℕ) : RefImage :=
  let reference := video_reader visual_crop.frame_number
  let reference :=
    if reference.height ≠ visual_crop.original_height ∨
        reference.width ≠ visual_crop.original_width then
      cvResize reference visual_crop.original_width visual_crop.original_height
    else reference
  ⟨reference,
   (visual_crop.x, visual_crop.y,
    visual_crop.x + visual_crop.width, visual_crop.y + visual_crop.height),
   context_pad, size⟩

/-- Downscale ratio used for the searched frame s:
image_scale = float(downscale_height) / image.shape[0], where the frame was
first resized to (original_width, original_height) if its shape mismatched. -/
def frameScale (video_reader : ℕ → Frame) (oheight owidth downscale_height : ℕ)
    (s : ℕ) : ℚ :=
  let image := video_reader s
  let image :=
    if image.height ≠ oheight ∨ image.width ≠ owidth then
      cvResize image owidth oheight
    else image
  (downscale_height : ℚ) / (image.height : ℚ)

/-- Rescaling of one model box back to original coordinates and tagging with
its frame (lines 97-100):
ret_bbs = (instances.pred_boxes.tensor / image_scale).astype(int);
ret_bbs = [BBox(search_window[j], *bbox) for bbox in ret_bbs]. -/
def rescaleBox (s : ℕ) (image_scale : ℚ) (b : ℚ × ℚ × ℚ × ℚ) : BBox :=
  ⟨s, pyInt (b.1 / image_scale), pyInt (b.2.1 / image_scale),
   pyInt (b.2.2.1 / image_scale), pyInt (b.2.2.2 / image_scale)⟩

/-- Per-searched-frame result of one loop iteration of perform_retrieval: the
model instances for the frame's (downscaled image, reference) pair, with boxes
divided by the frame's scale, truncated to integers and tagged with the frame
index. -/
def processFrame (net : Net) (video_reader : ℕ → Frame)
    (oheight owidth downscale_height : ℕ) (s : ℕ) : List BBox × List ℚ :=
  let image_scale := frameScale video_reader oheight owidth downscale_height s
  ((net.infer s).1.map (rescaleBox s image_scale), (net.infer s).2)

/-- Batched loop of perform_retrieval (lines 67-105):
for i in range(0, len(search_window), batch_size): each iteration consumes the
next batch_size window entries, collects the original frames when visualize is
set, runs the model on the batch and appends rescaled boxes and scores per
frame.  The loop advances by batch_size ≥ 1 entries per iteration, so fuel
equal to the window length bounds the iteration count; batch_size = 0 raises
ValueError in Python (range step 0) and is excluded by hypothesis in every
theorem below. -/
def batchLoopAux (net : Net) (video_reader : ℕ → Frame)
    (oheight owidth downscale_height batch_size : ℕ) (visualize : Bool) :
    ℕ → List ℕ → List (List BBox) × List (List ℚ) × List Frame
  | 0, _ => ([], [], [])
  | fuel + 1, search_window =>
    if search_window = [] then ([], [], [])
    else
      ((search_window.take batch_size).map
          (fun s => (processFrame net video_reader oheight owidth downscale_height s).1)
        ++ (batchLoopAux net video_reader oheight owidth downscale_height
            batch_size visualize fuel (search_window.drop batch_size)).1,
       (search_window.take batch_size).map
          (fun s => (processFrame net video_reader oheight owidth downscale_height s).2)
        ++ (batchLoopAux net video_reader oheight owidth downscale_height
            batch_size visualize fuel (search_window.drop batch_size)).2.1,
       (if visualize then (search_window.take batch_size).map video_reader else [])
        ++ (batchLoopAux net video_reader oheight owidth downscale_height
            batch_size visualize fuel (search_window.drop batch_size)).2.2)

/-- The batched loop, run to completion on the search window. -/
def batchLoop (net : Net) (video_reader : ℕ → Frame)
    (oheight owidth downscale_height batch_size : ℕ) (visualize : Bool)
    (search_window : List ℕ) : List (List BBox) × List (List ℚ) × List Frame :=
  batchLoopAux net video_reader oheight owidth downscale_height batch_size visualize
    search_window.length search_window

/-- perform_retrieval: returns (ret_bboxes, ret_scores, ret_imgs, reference). -/
def perform_retrieval (video_reader : ℕ → Frame) (visual_crop : VisualCrop)
    (query_frame : ℕ) (net : Net) (batch_size downscale_height : ℕ)
    (recency_factor subsampling_factor : ℚ) (visualize : Bool) :
    List (List BBox) × List (List ℚ) × List Frame × RefImage :=
  let reference := prepare_reference video_reader visual_crop
    net.cfg.reference_context_pad net.cfg.reference_size
  let search_window := select_search_window query_frame recency_factor subsampling_factor
  let res := batchLoop net video_reader visual_crop.original_height
    visual_crop.original_width downscale_height batch_size visualize search_window
  (res.1, res.2.1, res.2.2, reference)

/-- perform_cached_retrieval: gathers predictions by indexing the caller's
cached_bboxes / cached_scores at each selected frame index (lines 161-165);
ret_imgs = [video_reader[s].copy() for s in search_window] if visualize else [].
The cached per-frame entries are indexed by absolute frame number. -/
def perform_cached_retrieval (video_reader : ℕ → Frame) (visual_crop : VisualCrop)
    (query_frame : ℕ) (net : Net) (cached_bboxes : List (List BBox))
    (cached_scores : List (List ℚ)) (recency_factor subsampling_factor : ℚ)
    (visualize : Bool) :
    List (List BBox) × List (List ℚ) × List Frame × RefImage :=
  let reference := prepare_reference video_reader visual_crop
    net.cfg.reference_context_pad net.cfg.reference_size
  let search_window :=
    select_search_window_cached query_frame recency_factor subsampling_factor
  (search_window.map (fun s => cached_bboxes.getD s []),
   search_window.map (fun s => cached_scores.getD s []),
   if visualize then search_window.map (fun s => video_reader s) else [],
   reference)

/- Helper lemmas about the Python / numpy primitives. -/

lemma pyInt_of_nonneg {q : ℚ} (h : 0 ≤ q) : pyInt q = ⌊q⌋ := by
  simp [pyInt, h]

lemma pyRound_nonneg {q : ℚ} (h : 0 ≤ q) : 0 ≤ pyRound q := by
  have hfl : (0 : ℤ) ≤ ⌊q⌋ := Int.floor_nonneg.mpr h
  unfold pyRound
  split
  · exact hfl
  · split
    · omega
    · split <;> omega

lemma pyRound_le_int {q : ℚ} {m : ℤ} (h : q ≤ (m : ℚ)) : pyRound q ≤ m := by
  have hfl : ⌊q⌋ ≤ m := by
    have := Int.floor_le_floor h
    simpa using this
  have hkey : q - (⌊q⌋ : ℚ) < 1/2 ∨ ⌊q⌋ < m := by
    by_cases hqm : ⌊q⌋ = m
    · left
      have h0 : q - (⌊q⌋ : ℚ) ≤ 0 := by
        rw [hqm]; linarith
      linarith
    · right; omega
  unfold pyRound
  split
  · exact hfl
  · next hcond =>
    have hlt : ⌊q⌋ < m := by
      rcases hkey with hk | hk
      · exact absurd hk hcond
      · exact hk
    split
    · omega
    · split <;> omega

lemma pyRound_natCast (n : ℕ) : pyRound (n : ℚ) = n := by
  unfold pyRound
  rw [Int.floor_natCast]
  push_cast
  simp

lemma pySliceFrom_zero {α : Type} (l : List α) : pySliceFrom l 0 = l := by
  simp [pySliceFrom]

lemma pySliceFrom_neg {α : Type} (l : List α) (k : ℤ) (hk : 0 < k) :
    pySliceFrom l (-k) = l.drop (l.length - k.toNat) := by
  have h : ¬(0 ≤ -k) := by omega
  simp [pySliceFrom, h]

/- Lemmas about the recency step. -/

lemma recencyStep_eq_drop (w : List ℕ) (r : ℚ) :
    ∃ m, recencyStep w r = w.drop m := by
  unfold recencyStep pySliceFrom
  split_ifs <;> first
    | exact ⟨_, rfl⟩
    | exact ⟨0, (List.drop_zero w).symm⟩

lemma recencyStep_ne_nil {w : List ℕ} (r : ℚ) (hw : w ≠ []) :
    recencyStep w r ≠ [] := by
  unfold recencyStep
  split
  · next h => exact List.ne_nil_of_length_pos h
  · exact hw

lemma recencyStep_zero (w : List ℕ) : recencyStep w 0 = w := by
  have h1 : pyRound ((w.length : ℚ) * 0) = 0 := by
    rw [mul_zero]
    simpa using pyRound_natCast 0
  unfold recencyStep
  rw [h1]
  simp [pySliceFrom]

lemma recencyStep_of_one_le {w : List ℕ} {r : ℚ}
    (hk : 1 ≤ (pyRound ((w.length : ℚ) * r)).toNat)
    (hkle : (pyRound ((w.length : ℚ) * r)).toNat ≤ w.length) :
    recencyStep w r = w.drop (w.length - (pyRound ((w.length : ℚ) * r)).toNat) := by
  have hkpos : 0 < pyRound ((w.length : ℚ) * r) := by omega
  unfold recencyStep
  rw [pySliceFrom_neg w _ hkpos]
  have hc : 0 < (w.drop (w.length - (pyRound ((w.length : ℚ) * r)).toNat)).length := by
    rw [List.length_drop]; omega
  rw [if_pos hc]

/- Lemmas about the subsampling step. -/

lemma linspaceTrunc_length (W n : ℕ) : (linspaceTrunc W n).length = n := by
  unfold linspaceTrunc
  split
  · simp_all
  · split
    · simp_all
    · simp

lemma subsampleStep_zero (w : List ℕ) : subsampleStep w 0 = w := by
  have h1 : pyInt ((0 : ℚ) * (w.length : ℚ)) = 0 := by
    rw [zero_mul]
    simp [pyInt]
  unfold subsampleStep
  rw [h1]
  simp [linspaceTrunc]

lemma subsampleStep_of_count_zero {w : List ℕ} {f : ℚ}
    (h : (pyInt (f * (w.length : ℚ))).toNat = 0) : subsampleStep w f = w := by
  unfold subsampleStep
  rw [h]
  simp [linspaceTrunc]

lemma subsampleStep_of_count_pos {w : List ℕ} {f : ℚ}
    (h : 1 ≤ (pyInt (f * (w.length : ℚ))).toNat) :
    subsampleStep w f =
      (linspaceTrunc w.length (pyInt (f * (w.length : ℚ))).toNat).map
        (fun i => w.getD i 0) := by
  unfold subsampleStep
  have hl : 0 < (linspaceTrunc w.length (pyInt (f * (w.length : ℚ))).toNat).length := by
    rw [linspaceTrunc_length]; omega
  rw [if_pos hl]

/- Arithmetic facts about the interpolated sample positions. -/

/-- Proof-side name for the truncated interpolation position i*(W-1)/(n-1). -/
def interpFloor (W n i : ℕ) : ℤ := ⌊(i : ℚ) * ((W : ℚ) - 1) / ((n : ℚ) - 1)⌋

/-- Proof-side name for the i-th entry of linspaceTrunc W n when n ≥ 2. -/
def numpyIdx (W n i : ℕ) : ℕ :=
  if i = n - 1 then W - 1 else (interpFloor W n i).toNat

lemma linspaceTrunc_eq_map {W n : ℕ} (hn2 : 2 ≤ n) :
    linspaceTrunc W n = (List.range n).map (numpyIdx W n) := by
  have h0 : n ≠ 0 := by omega
  have h1 : n ≠ 1 := by omega
  simp [linspaceTrunc, numpyIdx, interpFloor, h0, h1]

lemma interpFloor_nonneg {W n : ℕ} (hn2 : 2 ≤ n) (hW : 1 ≤ W) (i : ℕ) :
    0 ≤ interpFloor W n i := by
  have hn1 : (0 : ℚ) ≤ (n : ℚ) - 1 := by
    have h : (2 : ℚ) ≤ (n : ℚ) := by exact_mod_cast hn2
    linarith
  have hW1 : (0 : ℚ) ≤ (W : ℚ) - 1 := by
    have h : (1 : ℚ) ≤ (W : ℚ) := by exact_mod_cast hW
    linarith
  exact Int.floor_nonneg.mpr
    (div_nonneg (mul_nonneg (Nat.cast_nonneg i) hW1) hn1)

lemma interpFloor_succ_le {W n : ℕ} (hn2 : 2 ≤ n) (hnW : n ≤ W) {i j : ℕ}
    (hij : i < j) : interpFloor W n i + 1 ≤ interpFloor W n j := by
  have hn1 : (0 : ℚ) < (n : ℚ) - 1 := by
    have h : (2 : ℚ) ≤ (n : ℚ) := by exact_mod_cast hn2
    linarith
  have hWn : ((n : ℚ) - 1) ≤ ((W : ℚ) - 1) := by
    have h : (n : ℚ) ≤ (W : ℚ) := by exact_mod_cast hnW
    linarith
  have hs1 : (1 : ℚ) ≤ ((W : ℚ) - 1) / ((n : ℚ) - 1) := (one_le_div hn1).mpr hWn
  have hform : ∀ k : ℕ, (k : ℚ) * ((W : ℚ) - 1) / ((n : ℚ) - 1)
      = (k : ℚ) * (((W : ℚ) - 1) / ((n : ℚ) - 1)) := fun k => mul_div_assoc _ _ _
  set s : ℚ := ((W : ℚ) - 1) / ((n : ℚ) - 1) with hs
  have hij' : (i : ℚ) + 1 ≤ (j : ℚ) := by exact_mod_cast hij
  have key : (i : ℚ) * s + 1 ≤ (j : ℚ) * s := by
    have h2 : ((i : ℚ) + 1) * s ≤ (j : ℚ) * s :=
      mul_le_mul_of_nonneg_right hij' (by linarith)
    nlinarith
  have h3 : ⌊(i : ℚ) * s⌋ + 1 = ⌊(i : ℚ) * s + 1⌋ := by
    rw [show ((1 : ℚ)) = ((1 : ℤ) : ℚ) by norm_num, Int.floor_add_int]
  have h4 : ⌊(i : ℚ) * s + 1⌋ ≤ ⌊(j : ℚ) * s⌋ := Int.floor_le_floor key
  unfold interpFloor
  rw [hform i, hform j]
  omega

lemma interpFloor_le_sub_two {W n : ℕ} (hn2 : 2 ≤ n) (hnW : n ≤ W) {i : ℕ}
    (hi : i ≤ n - 2) : interpFloor W n i ≤ (W : ℤ) - 2 := by
  have hn1 : (0 : ℚ) < (n : ℚ) - 1 := by
    have h : (2 : ℚ) ≤ (n : ℚ) := by exact_mod_cast hn2
    linarith
  have hWn : ((n : ℚ) - 1) ≤ ((W : ℚ) - 1) := by
    have h : (n : ℚ) ≤ (W : ℚ) := by exact_mod_cast hnW
    linarith
  have hs1 : (1 : ℚ) ≤ ((W : ℚ) - 1) / ((n : ℚ) - 1) := (one_le_div hn1).mpr hWn
  set s : ℚ := ((W : ℚ) - 1) / ((n : ℚ) - 1) with hs
  have hi' : (i : ℚ) ≤ (n : ℚ) - 2 := by
    have h : (i : ℕ) ≤ n - 2 := hi
    have h2 : ((i : ℚ)) ≤ ((n - 2 : ℕ) : ℚ) := by exact_mod_cast h
    have h3 : ((n - 2 : ℕ) : ℚ) = (n : ℚ) - 2 := by
      have : (2 : ℕ) ≤ n := hn2
      push_cast [Nat.cast_sub this]
      ring
    linarith
  have hcancel : ((n : ℚ) - 1) * s = (W : ℚ) - 1 := by
    rw [hs, mul_comm, div_mul_cancel₀ _ (ne_of_gt hn1)]
  have hx : (i : ℚ) * s ≤ (W : ℚ) - 2 := by
    have h1 : (i : ℚ) * s ≤ ((n : ℚ) - 2) * s :=
      mul_le_mul_of_nonneg_right hi' (by linarith)
    nlinarith
  have h5 : ⌊(i : ℚ) * s⌋ ≤ ⌊(W : ℚ) - 2⌋ := Int.floor_le_floor hx
  have h6 : ⌊(W : ℚ) - 2⌋ = (W : ℤ) - 2 := by
    rw [show ((W : ℚ) - 2) = (((W : ℤ) - 2 : ℤ) : ℚ) by push_cast; ring, Int.floor_intCast]
  unfold interpFloor
  rw [mul_div_assoc, ← hs]
  omega

lemma interpFloor_last {W n : ℕ} (hn2 : 2 ≤ n) :
    interpFloor W n (n - 1) = (W : ℤ) - 1 := by
  have hn1 : (0 : ℚ) < (n : ℚ) - 1 := by
    have h : (2 : ℚ) ≤ (n : ℚ) := by exact_mod_cast hn2
    linarith
  have hcast : ((n - 1 : ℕ) : ℚ) = (n : ℚ) - 1 := by
    have h : (1 : ℕ) ≤ n := by omega
    push_cast [Nat.cast_sub h]
    ring
  unfold interpFloor
  rw [hcast, mul_comm, mul_div_assoc, div_self (ne_of_gt hn1), mul_one]
  rw [show ((W : ℚ) - 1) = (((W : ℤ) - 1 : ℤ) : ℚ) by push_cast; ring, Int.floor_intCast]

lemma numpyIdx_lt {W n : ℕ} (hn2 : 2 ≤ n) (hnW : n ≤ W) {i : ℕ} (hi : i < n) :
    numpyIdx W n i < W := by
  unfold numpyIdx
  split
  · omega
  · next hne =>
    have hi2 : i ≤ n - 2 := by omega
    have h := interpFloor_le_sub_two hn2 hnW hi2
    omega

lemma numpyIdx_strictMono {W n : ℕ} (hn2 : 2 ≤ n) (hnW : n ≤ W) {i j : ℕ}
    (hij : i < j) (hj : j < n) : numpyIdx W n i < numpyIdx W n j := by
  have hW1 : 1 ≤ W := by omega
  unfold numpyIdx
  by_cases hbj : j = n - 1
  · rw [if_pos hbj]
    have hine : i ≠ n - 1 := by omega
    rw [if_neg hine]
    have hi2 : i ≤ n - 2 := by omega
    have h := interpFloor_le_sub_two hn2 hnW hi2
    omega
  · rw [if_neg hbj]
    have hine : i ≠ n - 1 := by omega
    rw [if_neg hine]
    have h1 := interpFloor_succ_le hn2 hnW hij
    have h2 := interpFloor_nonneg hn2 hW1 i
    omega

lemma linspaceTrunc_pairwise {W n : ℕ} (hnW : n ≤ W) :
    (linspaceTrunc W n).Pairwise (· < ·) := by
  rcases Nat.lt_or_ge n 2 with hn | hn2
  · interval_cases n
    · simp [linspaceTrunc]
    · simp [linspaceTrunc]
  · rw [linspaceTrunc_eq_map hn2, List.pairwise_map]
    refine (List.pairwise_lt_range n).imp_of_mem ?_
    intro a b ha hb hab
    exact numpyIdx_strictMono hn2 hnW hab (List.mem_range.mp hb)

lemma linspaceTrunc_mem_lt {W n : ℕ} (hnW : n ≤ W) (hn : 1 ≤ n) :
    ∀ x ∈ linspaceTrunc W n, x < W := by
  rcases Nat.lt_or_ge n 2 with hnlt | hn2
  · have h1 : n = 1 := by omega
    subst h1
    intro x hx
    simp [linspaceTrunc] at hx
    omega
  · rw [linspaceTrunc_eq_map hn2]
    intro x hx
    rcases List.mem_map.mp hx with ⟨i, hi, rfl⟩
    exact numpyIdx_lt hn2 hnW (List.mem_range.mp hi)

/- Window-level lemmas. -/

lemma pyInt_mul_le {f : ℚ} {W : ℕ} (hf1 : f ≤ 1) :
    (pyInt (f * (W : ℚ))).toNat ≤ W := by
  by_cases h : 0 ≤ f * (W : ℚ)
  · rw [pyInt_of_nonneg h]
    have hle : f * (W : ℚ) ≤ (W : ℚ) := by
      have := mul_le_mul_of_nonneg_right hf1 (Nat.cast_nonneg (α := ℚ) W)
      simpa using this
    have hfl : ⌊f * (W : ℚ)⌋ ≤ (W : ℤ) := by
      have h2 := Int.floor_le_floor hle
      simpa using h2
    omega
  · unfold pyInt
    rw [if_neg h]
    have h2 : (0 : ℚ) ≤ -(f * (W : ℚ)) := by
      push_neg at h
      linarith
    have h3 : 0 ≤ ⌊-(f * (W : ℚ))⌋ := Int.floor_nonneg.mpr h2
    omega

lemma subsampleStep_sublist_facts {w : List ℕ} {f : ℚ} (hf1 : f ≤ 1)
    (hw : w.Pairwise (· < ·)) :
    (subsampleStep w f).Pairwise (· < ·) ∧ (∀ x ∈ subsampleStep w f, x ∈ w) ∧
      (subsampleStep w f).length ≤ w.length := by
  rcases Nat.eq_zero_or_pos (pyInt (f * (w.length : ℚ))).toNat with h0 | hpos
  · rw [subsampleStep_of_count_zero h0]
    exact ⟨hw, fun x hx => hx, le_refl _⟩
  · rw [subsampleStep_of_count_pos hpos]
    have hnW : (pyInt (f * (w.length : ℚ))).toNat ≤ w.length := pyInt_mul_le hf1
    refine ⟨?_, ?_, ?_⟩
    · rw [List.pairwise_map]
      refine (linspaceTrunc_pairwise hnW).imp_of_mem ?_
      intro a b ha hb hab
      have haW : a < w.length := linspaceTrunc_mem_lt hnW (by omega) a ha
      have hbW : b < w.length := linspaceTrunc_mem_lt hnW (by omega) b hb
      rw [List.getD_eq_getElem _ _ haW, List.getD_eq_getElem _ _ hbW]
      exact List.pairwise_iff_get.mp hw ⟨a, haW⟩ ⟨b, hbW⟩ hab
    · intro x hx
      rcases List.mem_map.mp hx with ⟨i, hi, rfl⟩
      have hiW : i < w.length := linspaceTrunc_mem_lt hnW (by omega) i hi
      rw [List.getD_eq_getElem _ _ hiW]
      exact List.getElem_mem hiW
    · rw [List.length_map, linspaceTrunc_length]
      exact hnW

lemma linspaceTrunc_self {W : ℕ} (hW : 0 < W) : linspaceTrunc W W = List.range W := by
  rcases Nat.lt_or_ge W 2 with h | h2
  · have h1 : W = 1 := by omega
    subst h1
    simp [linspaceTrunc, List.range_succ]
  · rw [linspaceTrunc_eq_map h2]
    have hcong : ∀ i ∈ List.range W, numpyIdx W W i = i := by
      intro i hi
      have hiW : i < W := List.mem_range.mp hi
      unfold numpyIdx
      split
      · omega
      · unfold interpFloor
        have hW1 : ((W : ℚ) - 1) ≠ 0 := by
          have hc : (2 : ℚ) ≤ (W : ℚ) := by exact_mod_cast h2
          intro hzero
          rw [sub_eq_zero] at hzero
          rw [hzero] at hc
          norm_num at hc
        rw [mul_div_assoc, div_self hW1, mul_one, Int.floor_natCast, Int.toNat_natCast]
    rw [List.map_congr_left hcong, List.map_id']

lemma getD_range {q i : ℕ} (hi : i < q) : (List.range q).getD i 0 = i := by
  rw [List.getD_eq_getElem _ _ (by simpa using hi)]
  simp

/- Claims C2, C3, C5, C6. -/

/-- C2: for every query_frame > 0 (non-empty base window), recency_factor = 0
or subsampling_factor = 0 leaves the window that the corresponding step
receives unchanged: with recency_factor = 0 the recency step passes the base
window through, with subsampling_factor = 0 the subsampling step passes the
recency-filtered window through, and with both 0 the selected window is the
whole unfiltered base window. -/
theorem zero_factor_keeps_window (q : ℕ) (hq : 0 < q) (r f : ℚ) :
    recencyStep (baseWindow q) 0 = baseWindow q ∧
    subsampleStep (recencyStep (baseWindow q) r) 0 = recencyStep (baseWindow q) r ∧
    select_search_window q 0 f = subsampleStep (baseWindow q) f ∧
    select_search_window q r 0 = recencyStep (baseWindow q) r ∧
    select_search_window q 0 0 = baseWindow q := by
  refine ⟨recencyStep_zero _, subsampleStep_zero _, ?_, ?_, ?_⟩
  · unfold select_search_window
    rw [recencyStep_zero]
  · unfold select_search_window
    rw [subsampleStep_zero]
  · unfold select_search_window
    rw [recencyStep_zero, subsampleStep_zero]

/-- C2 witness at query_frame = 3, recency_factor = 1/2, subsampling_factor = 1/3. -/
theorem zero_factor_keeps_window_witness :
    0 < 3 ∧
    (recencyStep (baseWindow 3) 0 = baseWindow 3 ∧
     subsampleStep (recencyStep (baseWindow 3) (1/2)) 0 =
       recencyStep (baseWindow 3) (1/2) ∧
     select_search_window 3 0 (1/3) = subsampleStep (baseWindow 3) (1/3) ∧
     select_search_window 3 (1/2) 0 = recencyStep (baseWindow 3) (1/2) ∧
     select_search_window 3 0 0 = baseWindow 3) :=
  ⟨by decide, zero_factor_keeps_window 3 (by decide) (1/2) (1/3)⟩

/-- C3: for every query_frame > 0, recency_factor = 1.0 and
subsampling_factor = 1.0 select exactly the full base window
[0, 1, ..., query_frame - 1] in increasing order. -/
theorem full_factors_select_entire_range (q : ℕ) (hq : 0 < q) :
    select_search_window q 1 1 = List.range q := by
  have h1 : recencyStep (List.range q) 1 = List.range q := by
    have hk : pyRound (((List.range q).length : ℚ) * 1) = (q : ℤ) := by
      rw [List.length_range, mul_one, pyRound_natCast]
    unfold recencyStep
    rw [hk, pySliceFrom_neg _ _ (by exact_mod_cast hq), List.length_range]
    simp [hq]
  have hn : (pyInt ((1 : ℚ) * ((List.range q).length : ℚ))).toNat = q := by
    rw [one_mul, List.length_range, pyInt_of_nonneg (Nat.cast_nonneg q),
      Int.floor_natCast, Int.toNat_natCast]
  have h2 : subsampleStep (List.range q) 1 = List.range q := by
    rw [subsampleStep_of_count_pos (by omega), hn, List.length_range,
      linspaceTrunc_self hq]
    have hcong : ∀ i ∈ List.range q, (List.range q).getD i 0 = i := by
      intro i hi
      exact getD_range (List.mem_range.mp hi)
    rw [List.map_congr_left hcong, List.map_id']
  unfold select_search_window baseWindow
  rw [h1, h2]

/-- C3 witness at query_frame = 4. -/
theorem full_factors_select_entire_range_witness :
    0 < 4 ∧ select_search_window 4 1 1 = List.range 4 :=
  ⟨by decide, full_factors_select_entire_range 4 (by decide)⟩

/-- C5: the live retriever (perform_retrieval) and the cached retriever
(perform_cached_retrieval) compute identical search windows for every
(query_frame, recency_factor, subsampling_factor): the two verbatim-duplicated
window computations agree. -/
theorem live_and_cached_windows_equal (query_frame : ℕ)
    (recency_factor subsampling_factor : ℚ) :
    select_search_window query_frame recency_factor subsampling_factor =
      select_search_window_cached query_frame recency_factor subsampling_factor := rfl

/-- C6: for all query_frame and factors in [0, 1], the selected search window
is strictly increasing (hence monotonically increasing), its entries lie in
[0, query_frame), and its size is at most query_frame. -/
theorem search_window_invariants (q : ℕ) (r f : ℚ) (hr0 : 0 ≤ r) (hr1 : r ≤ 1)
    (hf0 : 0 ≤ f) (hf1 : f ≤ 1) :
    (select_search_window q r f).Sorted (· < ·) ∧
    (∀ x ∈ select_search_window q r f, x < q) ∧
    (select_search_window q r f).length ≤ q := by
  obtain ⟨m, hm⟩ := recencyStep_eq_drop (baseWindow q) r
  have hw : (recencyStep (baseWindow q) r).Pairwise (· < ·) := by
    rw [hm]
    exact (List.pairwise_lt_range q).sublist (List.drop_sublist _ _)
  have hmem : ∀ x ∈ recencyStep (baseWindow q) r, x < q := by
    rw [hm]
    intro x hx
    exact List.mem_range.mp (List.mem_of_mem_drop hx)
  have hlen : (recencyStep (baseWindow q) r).length ≤ q := by
    rw [hm]
    unfold baseWindow
    rw [List.length_drop, List.length_range]
    omega
  obtain ⟨hp, hsub, hle⟩ := subsampleStep_sublist_facts hf1 hw
  exact ⟨hp, fun x hx => hmem x (hsub x hx), le_trans hle hlen⟩

/-- C6 witness at query_frame = 7, recency_factor = 1/2, subsampling_factor = 1/2. -/
theorem search_window_invariants_witness :
    (0 ≤ (1/2 : ℚ) ∧ (1/2 : ℚ) ≤ 1) ∧
    ((select_search_window 7 (1/2) (1/2)).Sorted (· < ·) ∧
     (∀ x ∈ select_search_window 7 (1/2) (1/2), x < 7) ∧
     (select_search_window 7 (1/2) (1/2)).length ≤ 7) :=
  ⟨⟨by norm_num, by norm_num⟩,
   search_window_invariants 7 (1/2) (1/2) (by norm_num) (by norm_num)
     (by norm_num) (by norm_num)⟩

/- Claim C4 (recency step). -/

lemma recencyStep_of_round_zero {w : List ℕ} {r : ℚ}
    (h : pyRound ((w.length : ℚ) * r) = 0) : recencyStep w r = w := by
  unfold recencyStep
  rw [h]
  simp [pySliceFrom]

/-- C4 counterexample: at query_frame = 1, recency_factor = 2/5 the claimed
rule "keep exactly the last round(query_frame * recency_factor) elements"
would keep round(2/5) = 0 elements, i.e. produce the empty window, but the
code keeps the full window [0]. -/
theorem recency_zero_slice_counterexample :
    (pyRound (((baseWindow 1).length : ℚ) * (2/5))).toNat = 0 ∧
    recencyStep (baseWindow 1) (2/5) = [0] := by with_unfolding_all decide

/-- C4 (amended): for query_frame > 0 and recency_factor ∈ (0, 1], with
k = round(query_frame * recency_factor) (Python half-to-even rounding): when
k ≥ 1 the recency step keeps exactly the last k elements of the base window
(size k); when k = 0 it keeps the whole base window instead of an empty
slice.  In particular for query_frame = 10, recency_factor = 1/2 the result
is [5, 6, 7, 8, 9]. -/
theorem recency_keeps_last_rounded_slice (q : ℕ) (r : ℚ) (hq : 0 < q)
    (hr0 : 0 < r) (hr1 : r ≤ 1) :
    (1 ≤ (pyRound ((q : ℚ) * r)).toNat →
      recencyStep (baseWindow q) r =
        (baseWindow q).drop (q - (pyRound ((q : ℚ) * r)).toNat) ∧
      (recencyStep (baseWindow q) r).length = (pyRound ((q : ℚ) * r)).toNat) ∧
    ((pyRound ((q : ℚ) * r)).toNat = 0 →
      recencyStep (baseWindow q) r = baseWindow q) ∧
    recencyStep (baseWindow 10) (1/2) = [5, 6, 7, 8, 9] := by
  have hlen : ((baseWindow q).length : ℚ) = (q : ℚ) := by
    simp [baseWindow]
  have hRW : pyRound (((baseWindow q).length : ℚ) * r) = pyRound ((q : ℚ) * r) := by
    rw [hlen]
  have hqr : (q : ℚ) * r ≤ (((q : ℤ)) : ℚ) := by
    push_cast
    exact mul_le_of_le_one_right (Nat.cast_nonneg q) hr1
  have hkle : pyRound ((q : ℚ) * r) ≤ (q : ℤ) := pyRound_le_int hqr
  have hknn : 0 ≤ pyRound ((q : ℚ) * r) :=
    pyRound_nonneg (mul_nonneg (Nat.cast_nonneg q) (le_of_lt hr0))
  refine ⟨?_, ?_, by with_unfolding_all decide⟩
  · intro hk1
    have hbl : (baseWindow q).length = q := by simp [baseWindow]
    have h1 : 1 ≤ (pyRound (((baseWindow q).length : ℚ) * r)).toNat := by
      rw [hRW]; exact hk1
    have h2 : (pyRound (((baseWindow q).length : ℚ) * r)).toNat ≤ (baseWindow q).length := by
      rw [hRW, hbl]; omega
    rw [recencyStep_of_one_le h1 h2, hRW, hbl]
    refine ⟨rfl, ?_⟩
    rw [List.length_drop, hbl]
    omega
  · intro hk0
    have h0 : pyRound (((baseWindow q).length : ℚ) * r) = 0 := by
      rw [hRW]; omega
    exact recencyStep_of_round_zero h0

/-- C4 witness at query_frame = 10, recency_factor = 1/2 (k = 5 ≥ 1, the
last-5 slice [5, 6, 7, 8, 9]). -/
theorem recency_keeps_last_rounded_slice_witness :
    (0 < 10 ∧ 0 < (1/2 : ℚ) ∧ (1/2 : ℚ) ≤ 1) ∧
    ((1 ≤ (pyRound ((10 : ℚ) * (1/2))).toNat →
      recencyStep (baseWindow 10) (1/2) =
        (baseWindow 10).drop (10 - (pyRound ((10 : ℚ) * (1/2))).toNat) ∧
      (recencyStep (baseWindow 10) (1/2)).length = (pyRound ((10 : ℚ) * (1/2))).toNat) ∧
    ((pyRound ((10 : ℚ) * (1/2))).toNat = 0 →
      recencyStep (baseWindow 10) (1/2) = baseWindow 10) ∧
    recencyStep (baseWindow 10) (1/2) = [5, 6, 7, 8, 9]) :=
  ⟨⟨by with_unfolding_all decide, by with_unfolding_all decide, by with_unfolding_all decide⟩,
   recency_keeps_last_rounded_slice 10 (1/2) (by with_unfolding_all decide) (by with_unfolding_all decide) (by with_unfolding_all decide)⟩

/- Claim C1 (subsampling step). -/

lemma getD_map_getD {l : List ℕ} {g : ℕ → ℕ} {i : ℕ} (h : i < l.length) :
    (l.map g).getD i 0 = g (l.getD i 0) := by
  rw [List.getD_eq_getElem _ _ (by simpa using h), List.getD_eq_getElem _ _ h,
    List.getElem_map]

lemma linspaceTrunc_one (W : ℕ) : linspaceTrunc W 1 = [0] := by
  simp [linspaceTrunc]

lemma linspaceTrunc_getD {W n i : ℕ} (hn2 : 2 ≤ n) (hi : i < n) :
    (linspaceTrunc W n).getD i 0 = numpyIdx W n i := by
  rw [linspaceTrunc_eq_map hn2,
    List.getD_eq_getElem _ _ (by simpa using hi), List.getElem_map,
    List.getElem_range]

/-- C1 counterexample: the claim fails twice on the code.  At window
[0, 1, 2, 3, 4] with subsampling_factor = 1/10 the step keeps all 5 elements
although floor(f * W) = 0, so it does not select exactly floor(f * W) indices;
at window [0, 1, 2, 3] with subsampling_factor = 3/4 the code selects
[0, 1, 3] (positions 0, 1.5, 3 truncated) while rounding the interpolated
positions to the nearest integer index would select [0, 2, 3]. -/
theorem subsample_nearest_rounding_counterexample :
    ((subsampleStep (List.range 5) (1/10)).length = 5 ∧ floorCount (1/10) 5 = 0) ∧
    (subsampleStep (List.range 4) (3/4) = [0, 1, 3] ∧
     (List.range 3).map (fun i : ℕ => (round ((i : ℚ) * 3 / 2)).toNat) = [0, 2, 3]) := by
  with_unfolding_all decide

/-- C1 (amended): for a recency-filtered window w of size W > 0 and
subsampling_factor f ∈ (0, 1], with n = floor(f * W): when n ≥ 1 the
subsampling step selects exactly n indices, evenly spaced by linear
interpolation over [0, W-1] with each position truncated (floored) to an
integer index — the i-th selected element is w[⌊i * (W-1) / (n-1)⌋] (for
n = 1 the division by zero denotes position 0) — and when n = 0 the step
keeps the whole window of size W (so, e.g., f = 1/2 and W = 10 give exactly
5 = floor(5) indices). -/
theorem subsample_count_and_truncation (w : List ℕ) (f : ℚ) (hf0 : 0 < f)
    (hf1 : f ≤ 1) (hW : 0 < w.length) :
    (1 ≤ floorCount f w.length →
      (subsampleStep w f).length = floorCount f w.length ∧
      ∀ i < floorCount f w.length,
        (subsampleStep w f).getD i 0 =
          w.getD ((⌊(i : ℚ) * ((w.length : ℚ) - 1) /
            ((floorCount f w.length : ℚ) - 1)⌋).toNat) 0) ∧
    (floorCount f w.length = 0 →
      subsampleStep w f = w ∧ (subsampleStep w f).length = w.length) := by
  have hnn : (0 : ℚ) ≤ f * (w.length : ℚ) :=
    mul_nonneg (le_of_lt hf0) (Nat.cast_nonneg _)
  have hcode : (pyInt (f * (w.length : ℚ))).toNat = floorCount f w.length := by
    unfold floorCount
    rw [pyInt_of_nonneg hnn]
  constructor
  · intro hn1
    have hpos : 1 ≤ (pyInt (f * (w.length : ℚ))).toNat := by omega
    rw [subsampleStep_of_count_pos hpos, hcode]
    refine ⟨by rw [List.length_map, linspaceTrunc_length], ?_⟩
    intro i hi
    have hiln : i < (linspaceTrunc w.length (floorCount f w.length)).length := by
      rw [linspaceTrunc_length]; exact hi
    rw [getD_map_getD hiln]
    rcases Nat.lt_or_ge (floorCount f w.length) 2 with h2 | h2
    · have hn : floorCount f w.length = 1 := by omega
      have hi0 : i = 0 := by omega
      subst hi0
      rw [hn, linspaceTrunc_one]
      norm_num
    · rw [linspaceTrunc_getD h2 hi]
      have hidx : numpyIdx w.length (floorCount f w.length) i =
          (⌊(i : ℚ) * ((w.length : ℚ) - 1) /
            ((floorCount f w.length : ℚ) - 1)⌋).toNat := by
        unfold numpyIdx
        split
        · next hlast =>
          subst hlast
          have h := interpFloor_last (W := w.length) h2
          unfold interpFloor at h
          omega
        · rfl
      rw [hidx]
  · intro hn0
    have h0 : (pyInt (f * (w.length : ℚ))).toNat = 0 := by omega
    rw [subsampleStep_of_count_zero h0]
    exact ⟨rfl, rfl⟩

/-- C1 witness at w = [0, ..., 9], subsampling_factor = 1/2 (n = 5 ≥ 1:
exactly five truncated-interpolation samples; the degenerate n = 0 branch is
vacuous here). -/
theorem subsample_count_and_truncation_witness :
    (0 < (1/2 : ℚ) ∧ (1/2 : ℚ) ≤ 1 ∧ 0 < (List.range 10).length) ∧
    ((1 ≤ floorCount (1/2) (List.range 10).length →
      (subsampleStep (List.range 10) (1/2)).length =
        floorCount (1/2) (List.range 10).length ∧
      ∀ i < floorCount (1/2) (List.range 10).length,
        (subsampleStep (List.range 10) (1/2)).getD i 0 =
          (List.range 10).getD ((⌊(i : ℚ) * (((List.range 10).length : ℚ) - 1) /
            ((floorCount (1/2) (List.range 10).length : ℚ) - 1)⌋).toNat) 0) ∧
    (floorCount (1/2) (List.range 10).length = 0 →
      subsampleStep (List.range 10) (1/2) = List.range 10 ∧
      (subsampleStep (List.range 10) (1/2)).length = (List.range 10).length)) :=
  ⟨⟨by with_unfolding_all decide, by with_unfolding_all decide, by with_unfolding_all decide⟩,
   subsample_count_and_truncation (List.range 10) (1/2) (by with_unfolding_all decide) (by with_unfolding_all decide)
     (by with_unfolding_all decide)⟩

/- Claim C10 (membership of the most recent frame). -/

lemma linspaceTrunc_ne_nil {W n : ℕ} (hn : 1 ≤ n) : linspaceTrunc W n ≠ [] := by
  intro h
  have := linspaceTrunc_length W n
  rw [h] at this
  simp at this
  omega

lemma linspaceTrunc_mem_last {W n : ℕ} (hn2 : 2 ≤ n) :
    (W - 1) ∈ linspaceTrunc W n := by
  rw [linspaceTrunc_eq_map hn2]
  refine List.mem_map.mpr ⟨n - 1, List.mem_range.mpr (by omega), ?_⟩
  unfold numpyIdx
  rw [if_pos rfl]

lemma linspaceTrunc_mem_one {n : ℕ} : ∀ x ∈ linspaceTrunc 1 n, x = 0 := by
  rcases Nat.lt_or_ge n 2 with h | h2
  · interval_cases n
    · simp [linspaceTrunc]
    · simp [linspaceTrunc]
  · rw [linspaceTrunc_eq_map h2]
    intro x hx
    rcases List.mem_map.mp hx with ⟨i, hi, rfl⟩
    unfold numpyIdx
    split
    · rfl
    · unfold interpFloor
      norm_num

/-- C10: for query_frame > 0, recency_factor ∈ (0, 1] and
subsampling_factor ≥ 0, with W the recency-filtered window size and
n = floor(subsampling_factor * W): the most recent frame index
query_frame - 1 belongs to the selected window whenever n = 0, n ≥ 2 or
W = 1; when n = 1 and W > 1 the selected window is exactly the singleton
holding the oldest recency-filtered index query_frame - W, and
query_frame - 1 is excluded. -/
theorem last_frame_membership (q : ℕ) (r f : ℚ) (hq : 0 < q) (hr0 : 0 < r)
    (hr1 : r ≤ 1) (hf0 : 0 ≤ f) :
    ((floorCount f (recencyStep (baseWindow q) r).length = 0 ∨
      2 ≤ floorCount f (recencyStep (baseWindow q) r).length ∨
      (recencyStep (baseWindow q) r).length = 1) →
      (q - 1) ∈ select_search_window q r f) ∧
    ((floorCount f (recencyStep (baseWindow q) r).length = 1 ∧
      1 < (recencyStep (baseWindow q) r).length) →
      select_search_window q r f = [q - (recencyStep (baseWindow q) r).length] ∧
      (q - 1) ∉ select_search_window q r f) := by
  have hbase : baseWindow q ≠ [] := by
    simp [baseWindow]
    omega
  obtain ⟨m, hm⟩ := recencyStep_eq_drop (baseWindow q) r
  have hwne : recencyStep (baseWindow q) r ≠ [] := recencyStep_ne_nil r hbase
  set w := recencyStep (baseWindow q) r with hwdef
  have hlen : w.length = q - m := by
    rw [hm]
    simp [baseWindow]
  have h0W : 0 < w.length := List.length_pos.mpr hwne
  have hmlt : m < q := by omega
  have hget : ∀ i, i < w.length → w.getD i 0 = m + i := by
    intro i hi
    have hi' : i < ((baseWindow q).drop m).length := by
      rw [← hm]
      exact hi
    rw [hm, List.getD_eq_getElem _ _ hi', List.getElem_drop]
    simp [baseWindow]
  have hlast : w.getD (w.length - 1) 0 = q - 1 := by
    rw [hget (w.length - 1) (by omega)]
    omega
  have hmemlast : (q - 1) ∈ w := by
    rw [← hlast, List.getD_eq_getElem _ _ (show w.length - 1 < w.length by omega)]
    exact List.getElem_mem _
  have hcode : (pyInt (f * (w.length : ℚ))).toNat = floorCount f w.length := by
    unfold floorCount
    rw [pyInt_of_nonneg (mul_nonneg hf0 (Nat.cast_nonneg _))]
  have hsel : select_search_window q r f = subsampleStep w f := rfl
  constructor
  · intro hcase
    rw [hsel]
    rcases hcase with h0 | h2 | hW1
    · rw [subsampleStep_of_count_zero (by omega)]
      exact hmemlast
    · rw [subsampleStep_of_count_pos (by omega)]
      refine List.mem_map.mpr ⟨w.length - 1, ?_, hlast⟩
      exact linspaceTrunc_mem_last (by omega)
    · rcases Nat.eq_zero_or_pos (floorCount f w.length) with hn0 | hn1
      · rw [subsampleStep_of_count_zero (by omega)]
        exact hmemlast
      · rw [subsampleStep_of_count_pos (by omega)]
        have hne : linspaceTrunc w.length (pyInt (f * (w.length : ℚ))).toNat ≠ [] :=
          linspaceTrunc_ne_nil (by omega)
        obtain ⟨x, hx⟩ := List.exists_mem_of_ne_nil _ hne
        refine List.mem_map.mpr ⟨x, hx, ?_⟩
        rw [hW1] at hx
        have hx0 : x = 0 := linspaceTrunc_mem_one x hx
        subst hx0
        rw [hget 0 h0W]
        omega
  · rintro ⟨hn1, hW2⟩
    rw [hsel, subsampleStep_of_count_pos (by omega)]
    have hl1 : linspaceTrunc w.length (pyInt (f * (w.length : ℚ))).toNat = [0] := by
      have h1 : (pyInt (f * (w.length : ℚ))).toNat = 1 := by omega
      rw [h1, linspaceTrunc_one]
    rw [hl1]
    simp only [List.map_cons, List.map_nil]
    rw [hget 0 h0W]
    constructor
    · have : m + 0 = q - w.length := by omega
      rw [this]
    · simp only [List.mem_singleton]
      omega

/-- C10 witness at query_frame = 10, recency_factor = 1/2,
subsampling_factor = 1/5: the recency window is [5,...,9] (W = 5), the
subsample count is floor(1) = 1, so the selected window is [10 - 5] = [5] and
frame 9 is excluded. -/
theorem last_frame_membership_witness :
    (0 < 10 ∧ 0 < (1/2 : ℚ) ∧ (1/2 : ℚ) ≤ 1 ∧ 0 ≤ (1/5 : ℚ)) ∧
    (((floorCount (1/5) (recencyStep (baseWindow 10) (1/2)).length = 0 ∨
      2 ≤ floorCount (1/5) (recencyStep (baseWindow 10) (1/2)).length ∨
      (recencyStep (baseWindow 10) (1/2)).length = 1) →
      (10 - 1) ∈ select_search_window 10 (1/2) (1/5)) ∧
    ((floorCount (1/5) (recencyStep (baseWindow 10) (1/2)).length = 1 ∧
      1 < (recencyStep (baseWindow 10) (1/2)).length) →
      select_search_window 10 (1/2) (1/5) =
        [10 - (recencyStep (baseWindow 10) (1/2)).length] ∧
      (10 - 1) ∉ select_search_window 10 (1/2) (1/5))) :=
  ⟨⟨by decide, by with_unfolding_all decide, by with_unfolding_all decide,
    by with_unfolding_all decide⟩,
   last_frame_membership 10 (1/2) (1/5) (by decide) (by with_unfolding_all decide)
     (by with_unfolding_all decide) (by with_unfolding_all decide)⟩

/- Batched-loop correctness: for batch_size ≥ 1 the loop visits each searched
frame once, in window order. -/

lemma batchLoopAux_eq {net : Net} {video_reader : ℕ → Frame}
    {oheight owidth downscale_height batch_size : ℕ} {visualize : Bool}
    (hbs : 0 < batch_size) :
    ∀ (fuel : ℕ) (sw : List ℕ), sw.length ≤ fuel →
      batchLoopAux net video_reader oheight owidth downscale_height batch_size
          visualize fuel sw =
        (sw.map (fun s =>
           (processFrame net video_reader oheight owidth downscale_height s).1),
         sw.map (fun s =>
           (processFrame net video_reader oheight owidth downscale_height s).2),
         if visualize then sw.map video_reader else []) := by
  intro fuel
  induction fuel with
  | zero =>
    intro sw h
    have hnil : sw = [] := List.eq_nil_of_length_eq_zero (by omega)
    subst hnil
    simp [batchLoopAux]
  | succ fuel ih =>
    intro sw h
    by_cases hsw : sw = []
    · subst hsw
      simp [batchLoopAux]
    · have hlenpos : 0 < sw.length := List.length_pos.mpr hsw
      have hrest : (sw.drop batch_size).length ≤ fuel := by
        rw [List.length_drop]
        omega
      simp only [batchLoopAux, if_neg hsw]
      rw [ih (sw.drop batch_size) hrest]
      simp only [Prod.mk.injEq]
      refine ⟨?_, ?_, ?_⟩
      · rw [← List.map_append, List.take_append_drop]
      · rw [← List.map_append, List.take_append_drop]
      · cases visualize
        · simp
        · simp only [if_pos]
          rw [← List.map_append, List.take_append_drop]

lemma batchLoop_eq {net : Net} {video_reader : ℕ → Frame}
    {oheight owidth downscale_height batch_size : ℕ} {visualize : Bool}
    (hbs : 0 < batch_size) (sw : List ℕ) :
    batchLoop net video_reader oheight owidth downscale_height batch_size
        visualize sw =
      (sw.map (fun s =>
         (processFrame net video_reader oheight owidth downscale_height s).1),
       sw.map (fun s =>
         (processFrame net video_reader oheight owidth downscale_height s).2),
       if visualize then sw.map video_reader else []) :=
  batchLoopAux_eq hbs sw.length sw (le_refl _)

lemma perform_retrieval_eq (video_reader : ℕ → Frame) (visual_crop : VisualCrop)
    (query_frame : ℕ) (net : Net) (batch_size downscale_height : ℕ)
    (recency_factor subsampling_factor : ℚ) (visualize : Bool)
    (hbs : 0 < batch_size) :
    perform_retrieval video_reader visual_crop query_frame net batch_size
        downscale_height recency_factor subsampling_factor visualize =
      ((select_search_window query_frame recency_factor subsampling_factor).map
         (fun s => (processFrame net video_reader visual_crop.original_height
           visual_crop.original_width downscale_height s).1),
       (select_search_window query_frame recency_factor subsampling_factor).map
         (fun s => (processFrame net video_reader visual_crop.original_height
           visual_crop.original_width downscale_height s).2),
       (if visualize then
         (select_search_window query_frame recency_factor subsampling_factor).map
           video_reader
        else []),
       prepare_reference video_reader visual_crop net.cfg.reference_context_pad
         net.cfg.reference_size) := by
  simp only [perform_retrieval]
  rw [batchLoop_eq hbs]

/- Claims C7, C8, C9 (retriever outputs). -/

lemma pyInt_sub_le_one {x : ℚ} {g : ℤ} (hg : 0 ≤ g) (h : |x - (g : ℚ)| ≤ 1) :
    |pyInt x - g| ≤ 1 := by
  rw [abs_le] at h
  obtain ⟨h1, h2⟩ := h
  rw [abs_le]
  by_cases hx : 0 ≤ x
  · rw [pyInt_of_nonneg hx]
    constructor
    · have hle : ((g - 1 : ℤ) : ℚ) ≤ x := by push_cast; linarith
      have := Int.le_floor.mpr hle
      omega
    · have hxle : x ≤ ((g + 1 : ℤ) : ℚ) := by push_cast; linarith
      have := Int.floor_le_floor hxle
      rw [Int.floor_intCast] at this
      omega
  · unfold pyInt
    rw [if_neg hx]
    push_neg at hx
    have hg0 : g = 0 := by
      have hq : (g : ℚ) < 1 := by linarith
      have : g < 1 := by exact_mod_cast hq
      omega
    subst hg0
    push_cast at h1 h2
    have hnx0 : 0 ≤ -x := by linarith
    have hf0 : 0 ≤ ⌊-x⌋ := Int.floor_nonneg.mpr hnx0
    have hf1 : ⌊-x⌋ ≤ 1 := by
      have hle : -x ≤ ((1 : ℤ) : ℚ) := by push_cast; linarith
      have := Int.floor_le_floor hle
      rw [Int.floor_intCast] at this
      exact this
    constructor <;> omega

/-- C7: in the live retriever the returned per-frame box lists are exactly the
model's boxes for each selected frame, divided by that frame's downscale ratio
(downscale_height over the post-correction frame height), truncated to integer
pixels, and tagged with the originating frame index; and a box whose
downscaled-frame coordinates are each within one downscaled unit (scale) of a
ground-truth box scaled by the ratio recovers, after division and truncation,
coordinates within ±1 pixel of that ground truth. -/
theorem rescale_roundtrip_and_tagging (video_reader : ℕ → Frame)
    (visual_crop : VisualCrop) (query_frame : ℕ) (net : Net)
    (batch_size downscale_height : ℕ) (recency_factor subsampling_factor : ℚ)
    (visualize : Bool) (hbs : 0 < batch_size) :
    (perform_retrieval video_reader visual_crop query_frame net batch_size
        downscale_height recency_factor subsampling_factor visualize).1 =
      (select_search_window query_frame recency_factor subsampling_factor).map
        (fun s => ((net.infer s).1).map (rescaleBox s
          (frameScale video_reader visual_crop.original_height
            visual_crop.original_width downscale_height s))) ∧
    (∀ (s : ℕ) (image_scale : ℚ) (b : ℚ × ℚ × ℚ × ℚ),
      (rescaleBox s image_scale b).fno = s) ∧
    (∀ (s : ℕ) (image_scale : ℚ) (b : ℚ × ℚ × ℚ × ℚ) (g1 g2 g3 g4 : ℤ),
      0 < image_scale → 0 ≤ g1 → 0 ≤ g2 → 0 ≤ g3 → 0 ≤ g4 →
      |b.1 - (g1 : ℚ) * image_scale| ≤ image_scale →
      |b.2.1 - (g2 : ℚ) * image_scale| ≤ image_scale →
      |b.2.2.1 - (g3 : ℚ) * image_scale| ≤ image_scale →
      |b.2.2.2 - (g4 : ℚ) * image_scale| ≤ image_scale →
      |(rescaleBox s image_scale b).x1 - g1| ≤ 1 ∧
      |(rescaleBox s image_scale b).y1 - g2| ≤ 1 ∧
      |(rescaleBox s image_scale b).x2 - g3| ≤ 1 ∧
      |(rescaleBox s image_scale b).y2 - g4| ≤ 1) := by
  refine ⟨?_, fun s sc b => rfl, ?_⟩
  · rw [perform_retrieval_eq video_reader visual_crop query_frame net batch_size
      downscale_height recency_factor subsampling_factor visualize hbs]
    rfl
  · intro s image_scale b g1 g2 g3 g4 h0 hg1 hg2 hg3 hg4 hb1 hb2 hb3 hb4
    have hdiv : ∀ (x : ℚ) (g : ℤ), |x - (g : ℚ) * image_scale| ≤ image_scale →
        |x / image_scale - (g : ℚ)| ≤ 1 := by
      intro x g hx
      have hne : image_scale ≠ 0 := ne_of_gt h0
      have heq : x / image_scale - (g : ℚ) = (x - g * image_scale) / image_scale := by
        field_simp
        ring
      rw [heq, abs_div, abs_of_pos h0, div_le_one h0]
      exact hx
    exact ⟨pyInt_sub_le_one hg1 (hdiv _ _ hb1), pyInt_sub_le_one hg2 (hdiv _ _ hb2),
      pyInt_sub_le_one hg3 (hdiv _ _ hb3), pyInt_sub_le_one hg4 (hdiv _ _ hb4)⟩

/-- C8: visualize = False yields an empty raw-frame list in both retrievers;
visualize = True yields exactly one raw frame per searched index, in
search-window order. -/
theorem visualize_frame_list (video_reader : ℕ → Frame) (visual_crop : VisualCrop)
    (query_frame : ℕ) (net : Net) (cached_bboxes : List (List BBox))
    (cached_scores : List (List ℚ)) (batch_size downscale_height : ℕ)
    (recency_factor subsampling_factor : ℚ) (hbs : 0 < batch_size) :
    (perform_retrieval video_reader visual_crop query_frame net batch_size
        downscale_height recency_factor subsampling_factor false).2.2.1 = [] ∧
    (perform_retrieval video_reader visual_crop query_frame net batch_size
        downscale_height recency_factor subsampling_factor true).2.2.1 =
      (select_search_window query_frame recency_factor subsampling_factor).map
        video_reader ∧
    (perform_cached_retrieval video_reader visual_crop query_frame net
        cached_bboxes cached_scores recency_factor subsampling_factor
        false).2.2.1 = [] ∧
    (perform_cached_retrieval video_reader visual_crop query_frame net
        cached_bboxes cached_scores recency_factor subsampling_factor
        true).2.2.1 =
      (select_search_window query_frame recency_factor subsampling_factor).map
        video_reader := by
  refine ⟨?_, ?_, rfl, rfl⟩
  · rw [perform_retrieval_eq video_reader visual_crop query_frame net batch_size
      downscale_height recency_factor subsampling_factor false hbs]
    rfl
  · rw [perform_retrieval_eq video_reader visual_crop query_frame net batch_size
      downscale_height recency_factor subsampling_factor true hbs]
    rfl

/-- C9: the cached retriever reads nothing from the model beyond its
configuration fields: its boxes and scores come solely from indexing
cached_bboxes and cached_scores at each selected frame index, and two models
with equal configuration but arbitrarily different inference behaviour give
identical outputs. -/
theorem cached_retrieval_model_independent (video_reader : ℕ → Frame)
    (visual_crop : VisualCrop) (query_frame : ℕ) (net1 net2 : Net)
    (cached_bboxes : List (List BBox)) (cached_scores : List (List ℚ))
    (recency_factor subsampling_factor : ℚ) (visualize : Bool)
    (hcfg : net1.cfg = net2.cfg) :
    perform_cached_retrieval video_reader visual_crop query_frame net1
        cached_bboxes cached_scores recency_factor subsampling_factor visualize =
      perform_cached_retrieval video_reader visual_crop query_frame net2
        cached_bboxes cached_scores recency_factor subsampling_factor visualize ∧
    (perform_cached_retrieval video_reader visual_crop query_frame net1
        cached_bboxes cached_scores recency_factor subsampling_factor
        visualize).1 =
      (select_search_window_cached query_frame recency_factor
        subsampling_factor).map (fun s => cached_bboxes.getD s []) ∧
    (perform_cached_retrieval video_reader visual_crop query_frame net1
        cached_bboxes cached_scores recency_factor subsampling_factor
        visualize).2.1 =
      (select_search_window_cached query_frame recency_factor
        subsampling_factor).map (fun s => cached_scores.getD s []) := by
  refine ⟨?_, rfl, rfl⟩
  simp only [perform_cached_retrieval]
  rw [hcfg]

/- Concrete sample inputs for the retriever witnesses. -/

def demoVideo : ℕ → Frame := fun i => ⟨1080, 1920, i⟩

def demoCrop : VisualCrop := ⟨0, 1920, 1080, 10, 20, 30, 40⟩

def demoNet : Net := ⟨⟨1/2, 256⟩, fun _ => ([((8 : ℚ), 9, 10, 11)], [9/10])⟩

def demoNetAlt : Net := ⟨⟨1/2, 256⟩, fun _ => ([], [])⟩

def demoBoxes : List (List BBox) := [[⟨0, 1, 2, 3, 4⟩], [], [⟨2, 5, 6, 7, 8⟩]]

def demoScores : List (List ℚ) := [[1/2], [], [3/4]]

/-- C7 witness at the demo inputs with batch_size = 2 > 0. -/
theorem rescale_roundtrip_and_tagging_witness :
    0 < 2 ∧
    ((perform_retrieval demoVideo demoCrop 3 demoNet 2 700 1 1 false).1 =
      (select_search_window 3 1 1).map
        (fun s => ((demoNet.infer s).1).map (rescaleBox s
          (frameScale demoVideo demoCrop.original_height
            demoCrop.original_width 700 s))) ∧
    (∀ (s : ℕ) (image_scale : ℚ) (b : ℚ × ℚ × ℚ × ℚ),
      (rescaleBox s image_scale b).fno = s) ∧
    (∀ (s : ℕ) (image_scale : ℚ) (b : ℚ × ℚ × ℚ × ℚ) (g1 g2 g3 g4 : ℤ),
      0 < image_scale → 0 ≤ g1 → 0 ≤ g2 → 0 ≤ g3 → 0 ≤ g4 →
      |b.1 - (g1 : ℚ) * image_scale| ≤ image_scale →
      |b.2.1 - (g2 : ℚ) * image_scale| ≤ image_scale →
      |b.2.2.1 - (g3 : ℚ) * image_scale| ≤ image_scale →
      |b.2.2.2 - (g4 : ℚ) * image_scale| ≤ image_scale →
      |(rescaleBox s image_scale b).x1 - g1| ≤ 1 ∧
      |(rescaleBox s image_scale b).y1 - g2| ≤ 1 ∧
      |(rescaleBox s image_scale b).x2 - g3| ≤ 1 ∧
      |(rescaleBox s image_scale b).y2 - g4| ≤ 1)) :=
  ⟨by decide,
   rescale_roundtrip_and_tagging demoVideo demoCrop 3 demoNet 2 700 1 1 false
     (by decide)⟩

/-- C8 witness at the demo inputs with batch_size = 2 > 0. -/
theorem visualize_frame_list_witness :
    0 < 2 ∧
    ((perform_retrieval demoVideo demoCrop 3 demoNet 2 700 1 1 false).2.2.1 = [] ∧
    (perform_retrieval demoVideo demoCrop 3 demoNet 2 700 1 1 true).2.2.1 =
      (select_search_window 3 1 1).map demoVideo ∧
    (perform_cached_retrieval demoVideo demoCrop 3 demoNet demoBoxes demoScores
        1 1 false).2.2.1 = [] ∧
    (perform_cached_retrieval demoVideo demoCrop 3 demoNet demoBoxes demoScores
        1 1 true).2.2.1 = (select_search_window 3 1 1).map demoVideo) :=
  ⟨by decide,
   visualize_frame_list demoVideo demoCrop 3 demoNet demoBoxes demoScores 2 700
     1 1 (by decide)⟩

/-- C9 witness: demoNet and demoNetAlt share the configuration fields but have
different inference behaviour. -/
theorem cached_retrieval_model_independent_witness :
    demoNet.cfg = demoNetAlt.cfg ∧
    (perform_cached_retrieval demoVideo demoCrop 3 demoNet demoBoxes demoScores
        1 1 false =
      perform_cached_retrieval demoVideo demoCrop 3 demoNetAlt demoBoxes
        demoScores 1 1 false ∧
    (perform_cached_retrieval demoVideo demoCrop 3 demoNet demoBoxes demoScores
        1 1 false).1 =
      (select_search_window_cached 3 1 1).map (fun s => demoBoxes.getD s []) ∧
    (perform_cached_retrieval demoVideo demoCrop 3 demoNet demoBoxes demoScores
        1 1 false).2.1 =
      (select_search_window_cached 3 1 1).map (fun s => demoScores.getD s [])) :=
  ⟨rfl,
   cached_retrieval_model_independent demoVideo demoCrop 3 demoNet demoNetAlt
     demoBoxes demoScores 1 1 false rfl⟩
